import Mathlib

/-! Intel OpenCL program-binary walk of `bug.cpp`

A shallow embedding of the container walk performed by `main` in `src/bug.cpp`
(lines 64-95): the program header is read through a pointer cast, the magic is
asserted, and a raw cursor `ptr` is advanced over `NumberOfKernels` kernel
records, copying `KernelHeapSize` bytes whenever `strcmp` reports that the
record's name is the requested kernel.

Memory is a list of bytes (`binary[0]`, of length `binary_size[0]`), a pointer
is an offset into it, and every read is `Option`-valued: `none` stands for a
read outside the buffer, which the C++ program performs unchecked (undefined
behaviour). Only reads are checked: the cursor itself is an unbounded natural
number and may be moved past the end of the buffer. Assertions are taken to be
enabled. The OpenCL calls that produce the buffer and the dispatch that follows
the loop are not modelled.

The structs and the constant of `patch_list.h` are not part of the sources;
their sizes and field offsets are collected in `Layout`, and every theorem
holds for every layout.
-/

namespace IntelBinary

/-- One `uint8_t`. -/
abbrev Byte := Fin 256

/-- The declarations of `patch_list.h` used by `main`: the value of
`iOpenCL::MAGIC_CL`, `sizeof(SProgramBinaryHeader)`,
`sizeof(SKernelBinaryHeaderCommon)` and the byte offsets of the fields that are
read. The header file is not part of the sources, so the layout is a parameter
of every definition. -/
structure Layout where
  MAGIC_CL : Nat
  progHeaderSize : Nat
  offMagic : Nat
  offVersion : Nat
  offDevice : Nat
  offNumberOfKernels : Nat
  offPatchListSize : Nat
  kernHeaderSize : Nat
  offKernelNameSize : Nat
  offKernelPatchListSize : Nat
  offKernelHeapSize : Nat
  offGeneralStateHeapSize : Nat
  offDynamicStateHeapSize : Nat
  offSurfaceStateHeapSize : Nat

/-- Every 32-bit field of the program header lies inside the struct. -/
def Layout.Valid (L : Layout) : Prop :=
  L.offMagic + 4 ≤ L.progHeaderSize ∧
  L.offVersion + 4 ≤ L.progHeaderSize ∧
  L.offDevice + 4 ≤ L.progHeaderSize ∧
  L.offNumberOfKernels + 4 ≤ L.progHeaderSize ∧
  L.offPatchListSize + 4 ≤ L.progHeaderSize

instance (L : Layout) : Decidable L.Valid := by
  unfold Layout.Valid; infer_instance

/-- Modelled from the spec: `patch_list.h` is not under src/, so this instance
of the layout holds exactly the fields that section 3 of the specification
names, in the order it names them, each 32 bits wide and packed; the magic is a
stand-in for the vendor constant. It is used only to evaluate examples. -/
def specLayout : Layout where
  MAGIC_CL := 0x494E5443
  progHeaderSize := 20
  offMagic := 0
  offVersion := 4
  offDevice := 8
  offNumberOfKernels := 12
  offPatchListSize := 16
  kernHeaderSize := 24
  offKernelNameSize := 0
  offKernelPatchListSize := 4
  offKernelHeapSize := 8
  offGeneralStateHeapSize := 12
  offDynamicStateHeapSize := 16
  offSurfaceStateHeapSize := 20

/-! ## Memory reads -/

/-- Load of a host-endian (little-endian) `uint32_t` field at offset `p`;
`none` when one of its four bytes is outside the buffer. -/
def readU32 (buf : List Byte) (p : Nat) : Option Nat :=
  match buf.drop p with
  | b0 :: b1 :: b2 :: b3 :: _ =>
    some (b0.val + 256 * b1.val + 65536 * b2.val + 16777216 * b3.val)
  | _ => none

/-- Addition of two `uint32_t` values. -/
def addU32 (a b : Nat) : Nat := (a + b) % 2 ^ 32

/-- The loop of `strcmp(s, lit) == 0`, where `mem` is the memory from `s` to
the end of the buffer and `lit` the bytes of the literal including its
terminating NUL: bytes are compared one by one until they differ or both are
NUL. `none` when the scan leaves the buffer (or the literal). -/
def cstrEq : List Byte → List Byte → Option Bool
  | _, [] => none
  | [], _ :: _ => none
  | b :: bs, c :: cs =>
    if b ≠ c then some false
    else if c = 0 then some true
    else cstrEq bs cs

/-- The call `strcmp(kernel_name, "...") == 0` with `kernel_name = buf + p`;
`target` holds the characters of the string literal without the terminator. -/
def strcmpEq (buf : List Byte) (p : Nat) (target : List Byte) : Option Bool :=
  cstrEq (buf.drop p) (target ++ [0])

/-- The call `memcpy(dst, buf + p, n)`: the `n` bytes read, `none` when the
source range is not inside the buffer. -/
def memcpy (buf : List Byte) (p n : Nat) : Option (List Byte) :=
  if p + n ≤ buf.length then some ((buf.drop p).take n) else none

/-! ## The kernel-record loop -/

/-- State of the loop of lines 77-95: the cursor `ptr` (as an offset from
`binary[0]`), and two traces: the value of `kernel_header` in each iteration
so far and the contents of each `raw_binary` vector built so far. -/
structure WalkState where
  ptr : Nat
  visited : List Nat
  copies : List (List Byte)
deriving DecidableEq, Repr

/-- One iteration of the loop body (lines 78-94). -/
def kernelStep (L : Layout) (target : List Byte) (buf : List Byte)
    (s : WalkState) : Option WalkState := do
  let kernel_header := s.ptr
  let ptr := s.ptr + L.kernHeaderSize
  let kernel_name := ptr
  let nameSize ← readU32 buf (kernel_header + L.offKernelNameSize)
  let ptr := ptr + nameSize
  let isMatch ← strcmpEq buf kernel_name target
  let copies ←
    if isMatch then do
      let heapSize ← readU32 buf (kernel_header + L.offKernelHeapSize)
      let raw_binary ← memcpy buf ptr heapSize
      pure (s.copies ++ [raw_binary])
    else pure s.copies
  let patchListSize ← readU32 buf (kernel_header + L.offKernelPatchListSize)
  let kernelHeapSize ← readU32 buf (kernel_header + L.offKernelHeapSize)
  let generalStateHeapSize ← readU32 buf (kernel_header + L.offGeneralStateHeapSize)
  let dynamicStateHeapSize ← readU32 buf (kernel_header + L.offDynamicStateHeapSize)
  let surfaceStateHeapSize ← readU32 buf (kernel_header + L.offSurfaceStateHeapSize)
  let advance := addU32 (addU32 (addU32 (addU32 patchListSize kernelHeapSize)
    generalStateHeapSize) dynamicStateHeapSize) surfaceStateHeapSize
  pure { ptr := ptr + advance, visited := s.visited ++ [kernel_header], copies := copies }

/-- The `for` loop of line 77 run for `n` iterations. -/
def kernelLoop (L : Layout) (target : List Byte) (buf : List Byte) :
    Nat → WalkState → Option WalkState
  | 0, s => some s
  | n + 1, s =>
    match kernelStep L target buf s with
    | none => none
    | some s' => kernelLoop L target buf n s'

/-- How the walk of `main` ends. -/
inductive Outcome where
  /-- A read outside the buffer happened (undefined behaviour in C++). -/
  | outOfBounds
  /-- The `assert(header->Magic == iOpenCL::MAGIC_CL)` of line 73 failed. -/
  | badMagic
  /-- The loop ran to completion. -/
  | done (s : WalkState)
deriving DecidableEq, Repr

/-- Lines 64-95 of `main` on the buffer `binary[0]`: the header fields printed
by lines 67-70 are read, the magic is asserted, the cursor is placed after the
program header and its patch list, and the kernel loop runs
`NumberOfKernels` times. `target` is the name the loop compares against; in the
source it is the literal `"E_2_4"`. -/
def parseMain (L : Layout) (target : List Byte) (buf : List Byte) : Outcome :=
  match readU32 buf L.offMagic, readU32 buf L.offVersion, readU32 buf L.offDevice,
      readU32 buf L.offNumberOfKernels with
  | some magic, some _, some _, some numberOfKernels =>
    if magic ≠ L.MAGIC_CL then Outcome.badMagic
    else
      match readU32 buf L.offPatchListSize with
      | none => Outcome.outOfBounds
      | some patchListSize =>
        match kernelLoop L target buf numberOfKernels
            { ptr := L.progHeaderSize + patchListSize, visited := [], copies := [] } with
        | none => Outcome.outOfBounds
        | some s => Outcome.done s
  | _, _, _, _ => Outcome.outOfBounds

/-- The bytes of the literal `"E_2_4"` of line 85. -/
def E_2_4 : List Byte := [0x45, 0x5F, 0x32, 0x5F, 0x34]

/-- The walk exactly as `main` performs it, with the name fixed to `"E_2_4"`. -/
def main (L : Layout) (buf : List Byte) : Outcome := parseMain L E_2_4 buf

/-! ## Containers (section 3 of the specification) -/

/-- One kernel record: the bytes of its `SKernelBinaryHeaderCommon`, the
`KernelNameSize` name bytes and the five regions, in the order of section 3. -/
structure KernelRecord where
  header : List Byte
  name : List Byte
  patchList : List Byte
  kernelHeap : List Byte
  generalStateHeap : List Byte
  dynamicStateHeap : List Byte
  surfaceStateHeap : List Byte
deriving DecidableEq, Repr

/-- The five regions that follow the name, concatenated. -/
def KernelRecord.regions (r : KernelRecord) : List Byte :=
  r.patchList ++ (r.kernelHeap ++ (r.generalStateHeap ++
    (r.dynamicStateHeap ++ r.surfaceStateHeap)))

/-- The serialized record. -/
def KernelRecord.bytes (r : KernelRecord) : List Byte :=
  r.header ++ (r.name ++ r.regions)

/-- Kernel records laid out back to back. -/
def encodeRecords : List KernelRecord → List Byte
  | [] => []
  | r :: rs => r.bytes ++ encodeRecords rs

/-- A container: program header bytes, program patch list, kernel records and
residual bytes after the last record. -/
structure Container where
  header : List Byte
  patchList : List Byte
  kernels : List KernelRecord
  trailing : List Byte
deriving DecidableEq, Repr

/-- The buffer obtained by concatenating the parts of the container. -/
def Container.bytes (c : Container) : List Byte :=
  c.header ++ (c.patchList ++ (encodeRecords c.kernels ++ c.trailing))

/-- The logical name held by a name field: its bytes up to the first NUL, or
all of them when there is none. -/
def logicalName (nameBytes : List Byte) : List Byte :=
  nameBytes.takeWhile (fun b => b ≠ 0)

/-- Sum of the five region sizes of a record, as an unbounded integer. -/
def KernelRecord.regionsLength (r : KernelRecord) : Nat :=
  r.patchList.length + r.kernelHeap.length + r.generalStateHeap.length +
    r.dynamicStateHeap.length + r.surfaceStateHeap.length

/-- Total length of a record: the common prefix, the name and the five
regions. -/
def KernelRecord.totalLength (L : Layout) (r : KernelRecord) : Nat :=
  L.kernHeaderSize + r.name.length + r.regionsLength

/-- The record length computed from the sizes declared in the record's header
(a field that cannot be read counts as 0). -/
def KernelRecord.declaredLength (L : Layout) (r : KernelRecord) : Nat :=
  L.kernHeaderSize + (readU32 r.header L.offKernelNameSize).getD 0 +
    (readU32 r.header L.offKernelPatchListSize).getD 0 +
    (readU32 r.header L.offKernelHeapSize).getD 0 +
    (readU32 r.header L.offGeneralStateHeapSize).getD 0 +
    (readU32 r.header L.offDynamicStateHeapSize).getD 0 +
    (readU32 r.header L.offSurfaceStateHeapSize).getD 0

/-- A well-formed kernel record (section 3): the header has the size of the
struct, each size field declares the length of the region it describes, and the
five sizes add up without leaving 32 bits (step 4f of the parser rejects a
record whose sum overflows). The name field is any `KernelNameSize` bytes; it
may hold no NUL. -/
def KernelRecord.WellFormed (L : Layout) (r : KernelRecord) : Prop :=
  r.header.length = L.kernHeaderSize ∧
  readU32 r.header L.offKernelNameSize = some r.name.length ∧
  readU32 r.header L.offKernelPatchListSize = some r.patchList.length ∧
  readU32 r.header L.offKernelHeapSize = some r.kernelHeap.length ∧
  readU32 r.header L.offGeneralStateHeapSize = some r.generalStateHeap.length ∧
  readU32 r.header L.offDynamicStateHeapSize = some r.dynamicStateHeap.length ∧
  readU32 r.header L.offSurfaceStateHeapSize = some r.surfaceStateHeap.length ∧
  r.regionsLength < 2 ^ 32

instance (L : Layout) (r : KernelRecord) : Decidable (r.WellFormed L) := by
  unfold KernelRecord.WellFormed; infer_instance

/-- A well-formed container: the program header has the size of the struct and
carries the magic, `NumberOfKernels` is the number of records, `PatchListSize`
the length of the program patch list, and every record is well formed. -/
def Container.WellFormed (L : Layout) (c : Container) : Prop :=
  c.header.length = L.progHeaderSize ∧
  readU32 c.header L.offMagic = some L.MAGIC_CL ∧
  readU32 c.header L.offNumberOfKernels = some c.kernels.length ∧
  readU32 c.header L.offPatchListSize = some c.patchList.length ∧
  ∀ r ∈ c.kernels, r.WellFormed L

instance (L : Layout) (c : Container) : Decidable (c.WellFormed L) := by
  unfold Container.WellFormed; infer_instance

/-- Every name field of the container holds a NUL, so that each kernel name is
a C string that ends inside its own field. This is not part of
well-formedness: section 3 lets a name fill its field. -/
def Container.NamesTerminated (c : Container) : Prop :=
  ∀ r ∈ c.kernels, (0 : Byte) ∈ r.name

instance (c : Container) : Decidable c.NamesTerminated := by
  unfold Container.NamesTerminated; infer_instance

/-- Offsets at which the records start when the first one starts at `start`. -/
def recordOffsets (L : Layout) (start : Nat) : List KernelRecord → List Nat
  | [] => []
  | r :: rs => start :: recordOffsets L (start + r.totalLength L) rs

/-! ## Concrete containers in the layout `specLayout` -/

/-- The four bytes of a little-endian `uint32_t`. -/
def u32le (n : Nat) : List Byte :=
  [Fin.ofNat n, Fin.ofNat (n / 256), Fin.ofNat (n / 65536), Fin.ofNat (n / 16777216)]

/-- Program header bytes in `specLayout`. -/
def mkProgramHeader (magic version device numberOfKernels patchListSize : Nat) :
    List Byte :=
  u32le magic ++ u32le version ++ u32le device ++ u32le numberOfKernels ++
    u32le patchListSize

/-- Kernel header bytes in `specLayout`. -/
def mkKernelHeader (nameSize patchListSize heapSize generalSize dynamicSize
    surfaceSize : Nat) : List Byte :=
  u32le nameSize ++ u32le patchListSize ++ u32le heapSize ++ u32le generalSize ++
    u32le dynamicSize ++ u32le surfaceSize

/-- A record in `specLayout` whose header declares the actual sizes. -/
def mkRecord (name patchList heap : List Byte) : KernelRecord where
  header := mkKernelHeader name.length patchList.length heap.length 0 0 0
  name := name
  patchList := patchList
  kernelHeap := heap
  generalStateHeap := []
  dynamicStateHeap := []
  surfaceStateHeap := []

/-- A container in `specLayout` with an empty program patch list and no
trailing bytes. -/
def mkContainer (kernels : List KernelRecord) : Container where
  header := mkProgramHeader specLayout.MAGIC_CL 0 0 kernels.length 0
  patchList := []
  kernels := kernels
  trailing := []

/-- The heap payload `00 01 .. 0F` of scenario S1. -/
def s1Heap : List Byte := [0, 1, 2, 3, 4, 5, 6, 7, 8, 9, 10, 11, 12, 13, 14, 15]

/-- Scenario S1: one kernel `"E_2_4\0"` with a 16-byte heap. -/
def s1Container : Container := mkContainer [mkRecord (E_2_4 ++ [0]) [] s1Heap]

/-- The buffer of scenario S1. -/
def s1Buffer : List Byte := s1Container.bytes

/-- What the walk copies for a record whose name matches: `KernelHeapSize`
bytes taken from the start of the regions, right after the name. -/
def KernelRecord.copied (r : KernelRecord) : List Byte :=
  r.regions.take r.kernelHeap.length

/-- The copies of the records whose logical name is the target, in order: what
the walk copies over records whose name fields hold a NUL. -/
def copiesOf (target : List Byte) (rs : List KernelRecord) : List (List Byte) :=
  (rs.filter (fun r => decide (logicalName r.name = target))).map KernelRecord.copied

/-- Sum of the total lengths of the records. -/
def recordsLength (L : Layout) (rs : List KernelRecord) : Nat :=
  (rs.map (KernelRecord.totalLength L)).sum

/-- The names `"A"` and `"B"` of scenario S3. -/
def nameA : List Byte := [0x41]

/-- The second name of scenario S3. -/
def nameB : List Byte := [0x42]

/-- The heap `AA AA AA AA` of scenario S3. -/
def heapA : List Byte := [0xAA, 0xAA, 0xAA, 0xAA]

/-- The heap `BB BB BB BB BB BB` of scenario S3. -/
def heapB : List Byte := [0xBB, 0xBB, 0xBB, 0xBB, 0xBB, 0xBB]

/-- Scenario S3: kernel `"A"` followed by kernel `"B"`. -/
def abContainer : Container :=
  mkContainer [mkRecord (nameA ++ [0]) [] heapA, mkRecord (nameB ++ [0]) [] heapB]

/-- One kernel `"E_2_4"` with a two-byte per-kernel patch list `EE EE` in front
of its heap `01 02 03 04`. -/
def patchedContainer : Container :=
  mkContainer [mkRecord (E_2_4 ++ [0]) [0xEE, 0xEE] [1, 2, 3, 4]]

/-- A 46-byte buffer with one kernel record named `"x"` whose header declares
`KernelHeapSize = 0xFFFFFFFF` and `GeneralStateHeapSize = 1`: the five sizes
add up to `2 ^ 32`. -/
def overflowBuffer : List Byte :=
  mkProgramHeader specLayout.MAGIC_CL 0 0 1 0 ++
    (mkKernelHeader 2 0 0xFFFFFFFF 1 0 0 ++ [0x78, 0])

/-- One kernel whose name field is the five bytes `E_2_4` with
`KernelNameSize = 5` and no NUL, followed by a two-byte heap that starts with
`next`. -/
def unterminatedBuffer (next : Byte) : List Byte :=
  (mkContainer [mkRecord E_2_4 [] [next, 2]]).bytes

/-- One kernel whose record is a header and the five name bytes `E_2_4`, with
`KernelNameSize = 5`, no NUL and five empty regions: the buffer (49 bytes) ends
with the name. -/
def bareNameContainer : Container := mkContainer [mkRecord E_2_4 [] []]

/-- Kernel `"A"` of scenario S3 followed by a kernel whose record ends with the
five name bytes `E_2_4` (no NUL, empty regions). -/
def bareLastContainer : Container :=
  mkContainer [mkRecord (nameA ++ [0]) [] heapA, mkRecord E_2_4 [] []]

/-- A kernel record named `"x"` whose header declares
`KernelHeapSize = 0xFFFFFFFF` and `GeneralStateHeapSize = 1`, with a heap of
`n` zero bytes and a general state heap of one byte. For `n = 0xFFFFFFFF` the
sizes are declared exactly and add up to `2 ^ 32`. -/
def bigRecord (n : Nat) : KernelRecord where
  header := mkKernelHeader 2 0 0xFFFFFFFF 1 0 0
  name := [0x78, 0]
  patchList := []
  kernelHeap := List.replicate n 0
  generalStateHeap := [0]
  dynamicStateHeap := []
  surfaceStateHeap := []

/-- The container made of `bigRecord n` alone; 4 GiB and 46 bytes for
`n = 0xFFFFFFFF`. -/
def bigContainer (n : Nat) : Container where
  header := mkProgramHeader specLayout.MAGIC_CL 0 0 1 0
  patchList := []
  kernels := [bigRecord n]
  trailing := []

/-- The container made of `bigRecord n` followed by kernel `"A"` of scenario
S3, with `NumberOfKernels = 2`. -/
def bigPairContainer (n : Nat) : Container where
  header := mkProgramHeader specLayout.MAGIC_CL 0 0 2 0
  patchList := []
  kernels := [bigRecord n, mkRecord (nameA ++ [0]) [] heapA]
  trailing := []

/-- Scenario S5: the buffer of S1 with bytes 0..3 overwritten by
`DE AD BE EF`. -/
def s5Buffer : List Byte := [0xDE, 0xAD, 0xBE, 0xEF] ++ s1Buffer.drop 4

/-- A buffer that consists of the four bytes `DE AD BE EF` only. -/
def shortBuffer : List Byte := [0xDE, 0xAD, 0xBE, 0xEF]

/-! ## Reads inside concatenations -/

theorem readU32_append_right (pre bs : List Byte) (i : Nat) :
    readU32 (pre ++ bs) (pre.length + i) = readU32 bs i := by
  unfold readU32
  rw [List.drop_append]

theorem readU32_append_left (bs post : List Byte) (i v : Nat)
    (h : readU32 bs i = some v) : readU32 (bs ++ post) i = some v := by
  unfold readU32 at h ⊢
  have hle : i ≤ bs.length := by
    by_contra hc
    rw [List.drop_eq_nil_of_le (by omega)] at h
    simp at h
  rw [List.drop_append_of_le_length hle]
  match hd : bs.drop i, h with
  | b0 :: b1 :: b2 :: b3 :: t, h => simpa using h

theorem readU32_of_le (buf : List Byte) (p : Nat) (h : p + 4 ≤ buf.length) :
    ∃ v, readU32 buf p = some v := by
  unfold readU32
  have hl : (buf.drop p).length = buf.length - p := List.length_drop p buf
  match hd : buf.drop p with
  | [] => rw [hd] at hl; simp at hl; omega
  | [_] => rw [hd] at hl; simp at hl; omega
  | [_, _] => rw [hd] at hl; simp at hl; omega
  | [_, _, _] => rw [hd] at hl; simp at hl; omega
  | b0 :: b1 :: b2 :: b3 :: t => exact ⟨_, rfl⟩

theorem addU32_chain_mod (a b c d e : Nat) :
    addU32 (addU32 (addU32 (addU32 a b) c) d) e = (a + b + c + d + e) % 2 ^ 32 := by
  unfold addU32
  omega

/-! ## `strcmp` against a NUL-terminated name field -/

theorem cstrEq_terminated (name post target : List Byte)
    (hname : (0 : Byte) ∈ name) (htarget : ∀ b ∈ target, b ≠ (0 : Byte)) :
    cstrEq (name ++ post) (target ++ [0]) = some (decide (logicalName name = target)) := by
  induction name generalizing target with
  | nil => simp at hname
  | cons b bs ih =>
    cases target with
    | nil =>
      by_cases hb : b = 0
      · subst hb
        simp [cstrEq, logicalName]
      · simp [cstrEq, logicalName, hb]
    | cons c cs =>
      have hc : c ≠ 0 := htarget c (by simp)
      by_cases hbc : b = c
      · subst hbc
        have hbs : (0 : Byte) ∈ bs := by
          rcases List.mem_cons.mp hname with h | h
          · exact absurd h.symm hc
          · exact h
        have := ih cs hbs (fun x hx => htarget x (by simp [hx]))
        simp [logicalName, hc] at this ⊢
        simp [cstrEq, hc, this]
      · by_cases hb : b = 0
        · subst hb
          simp [cstrEq, logicalName, hbc]
        · simp [cstrEq, logicalName, hbc, hb]

/-- `strcmp` reports equality exactly when the memory at the pointer starts
with the characters of the literal followed by a NUL. -/
theorem cstrEq_eq_true_iff (mem target : List Byte) (ht : ∀ b ∈ target, b ≠ (0 : Byte)) :
    cstrEq mem (target ++ [0]) = some true ↔ ∃ rest, mem = target ++ 0 :: rest := by
  induction target generalizing mem with
  | nil =>
    cases mem with
    | nil => simp [cstrEq]
    | cons b bs =>
      by_cases hb : b = 0
      · subst hb; simp [cstrEq]
      · simp [cstrEq, hb]
  | cons c cs ih =>
    have hc : c ≠ 0 := ht c (by simp)
    cases mem with
    | nil => simp [cstrEq]
    | cons b bs =>
      by_cases hbc : b = c
      · subst hbc
        have := ih bs (fun x hx => ht x (by simp [hx]))
        simp [cstrEq, hc, this]
      · simp [cstrEq, hbc]

theorem memcpy_at (pre rest : List Byte) (n : Nat) (h : n ≤ rest.length) :
    memcpy (pre ++ rest) pre.length n = some (rest.take n) := by
  unfold memcpy
  rw [if_pos (by simp; omega), List.drop_left]

/-! ## The walk over well-formed records -/

theorem regions_length (r : KernelRecord) : r.regions.length = r.regionsLength := by
  simp [KernelRecord.regions, KernelRecord.regionsLength]
  omega

theorem bytes_length (L : Layout) (r : KernelRecord) (h : r.header.length = L.kernHeaderSize) :
    r.bytes.length = r.totalLength L := by
  simp [KernelRecord.bytes, KernelRecord.totalLength, regions_length, h]
  omega

theorem copiesOf_single (target : List Byte) (r : KernelRecord) :
    copiesOf target [r] = if logicalName r.name = target then [r.copied] else [] := by
  by_cases h : logicalName r.name = target <;> simp [copiesOf, h]

theorem copiesOf_cons (target : List Byte) (r : KernelRecord) (rs : List KernelRecord) :
    copiesOf target (r :: rs) = copiesOf target [r] ++ copiesOf target rs := by
  by_cases h : logicalName r.name = target <;> simp [copiesOf, h]

/-- One iteration of the loop on a record located at the cursor whose header
declares the sizes of its parts: the only read that can leave the buffer is
the scan of `strcmp`, which starts at the name field and runs over the bytes
that follow it. -/
theorem kernelStep_layout (L : Layout) (target : List Byte) (r : KernelRecord)
    (pre post : List Byte) (s : WalkState)
    (hlen : r.header.length = L.kernHeaderSize)
    (hns : readU32 r.header L.offKernelNameSize = some r.name.length)
    (hpl : readU32 r.header L.offKernelPatchListSize = some r.patchList.length)
    (hkh : readU32 r.header L.offKernelHeapSize = some r.kernelHeap.length)
    (hgs : readU32 r.header L.offGeneralStateHeapSize = some r.generalStateHeap.length)
    (hds : readU32 r.header L.offDynamicStateHeapSize = some r.dynamicStateHeap.length)
    (hss : readU32 r.header L.offSurfaceStateHeapSize = some r.surfaceStateHeap.length)
    (hs : s.ptr = pre.length) :
    kernelStep L target (pre ++ (r.bytes ++ post)) s =
      (cstrEq (r.name ++ (r.regions ++ post)) (target ++ [0])).map fun m =>
        { ptr := pre.length + L.kernHeaderSize + r.name.length + r.regionsLength % 2 ^ 32,
          visited := s.visited ++ [pre.length],
          copies := if m = true then s.copies ++ [r.copied] else s.copies } := by
  have hfield : ∀ off v, readU32 r.header off = some v →
      readU32 (pre ++ (r.bytes ++ post)) (s.ptr + off) = some v := by
    intro off v hv
    rw [hs, readU32_append_right]
    unfold KernelRecord.bytes
    rw [List.append_assoc]
    exact readU32_append_left _ _ _ _ hv
  have hstr : strcmpEq (pre ++ (r.bytes ++ post)) (s.ptr + L.kernHeaderSize) target =
      cstrEq (r.name ++ (r.regions ++ post)) (target ++ [0]) := by
    unfold strcmpEq
    have hd : (pre ++ (r.bytes ++ post)).drop (s.ptr + L.kernHeaderSize) =
        r.name ++ (r.regions ++ post) := by
      rw [hs, ← hlen, List.drop_append]
      unfold KernelRecord.bytes
      rw [List.append_assoc, List.drop_left, List.append_assoc]
    rw [hd]
  have hmem : memcpy (pre ++ (r.bytes ++ post)) (s.ptr + L.kernHeaderSize + r.name.length)
      r.kernelHeap.length = some r.copied := by
    have hle : r.kernelHeap.length ≤ r.regions.length := by
      rw [regions_length]; unfold KernelRecord.regionsLength; omega
    have h := memcpy_at (pre ++ (r.header ++ r.name)) (r.regions ++ post)
      r.kernelHeap.length (by simp; omega)
    rw [List.take_append_of_le_length hle] at h
    have e1 : pre ++ (r.bytes ++ post) = pre ++ (r.header ++ r.name) ++ (r.regions ++ post) := by
      simp [KernelRecord.bytes]
    have e2 : s.ptr + L.kernHeaderSize + r.name.length = (pre ++ (r.header ++ r.name)).length := by
      simp [hs, hlen]; omega
    rw [e1, e2]
    exact h
  have hadv := addU32_chain_mod r.patchList.length r.kernelHeap.length
    r.generalStateHeap.length r.dynamicStateHeap.length r.surfaceStateHeap.length
  unfold kernelStep
  simp only [hfield _ _ hns, hfield _ _ hpl, hfield _ _ hkh, hfield _ _ hgs, hfield _ _ hds,
    hfield _ _ hss, hstr, hmem, hadv, Option.bind_eq_bind, Option.some_bind, Option.pure_def]
  cases cstrEq (r.name ++ (r.regions ++ post)) (target ++ [0]) with
  | none => rfl
  | some m =>
    cases m <;> simp [hs, KernelRecord.regionsLength]

/-- One iteration of the loop on a well-formed record located at the cursor:
the cursor moves to the end of the record unless `strcmp` leaves the buffer. -/
theorem kernelStep_wellFormed (L : Layout) (target : List Byte) (r : KernelRecord)
    (pre post : List Byte) (s : WalkState) (hr : r.WellFormed L) (hs : s.ptr = pre.length) :
    kernelStep L target (pre ++ (r.bytes ++ post)) s =
      (cstrEq (r.name ++ (r.regions ++ post)) (target ++ [0])).map fun m =>
        { ptr := pre.length + r.totalLength L,
          visited := s.visited ++ [pre.length],
          copies := if m = true then s.copies ++ [r.copied] else s.copies } := by
  obtain ⟨hlen, hns, hpl, hkh, hgs, hds, hss, hsum⟩ := hr
  rw [kernelStep_layout L target r pre post s hlen hns hpl hkh hgs hds hss hs,
    Nat.mod_eq_of_lt hsum]
  simp [KernelRecord.totalLength, Nat.add_assoc]

/-- One iteration of the loop on a well-formed record whose name field holds a
NUL. -/
theorem kernelStep_record (L : Layout) (target : List Byte) (r : KernelRecord)
    (pre post : List Byte) (s : WalkState) (hr : r.WellFormed L)
    (hnul : (0 : Byte) ∈ r.name)
    (ht : ∀ b ∈ target, b ≠ (0 : Byte)) (hs : s.ptr = pre.length) :
    kernelStep L target (pre ++ (r.bytes ++ post)) s =
      some { ptr := pre.length + r.totalLength L,
             visited := s.visited ++ [pre.length],
             copies := s.copies ++ copiesOf target [r] } := by
  rw [kernelStep_wellFormed L target r pre post s hr hs,
    cstrEq_terminated r.name (r.regions ++ post) target hnul ht, copiesOf_single]
  by_cases hm : logicalName r.name = target <;> simp [hm]

/-- The loop over a run of well-formed records with NUL-terminated names that
starts at the cursor. -/
theorem kernelLoop_records (L : Layout) (target : List Byte) (rs : List KernelRecord)
    (ht : ∀ b ∈ target, b ≠ (0 : Byte)) :
    ∀ (pre post : List Byte) (s : WalkState), (∀ r ∈ rs, r.WellFormed L) →
      (∀ r ∈ rs, (0 : Byte) ∈ r.name) → s.ptr = pre.length →
      kernelLoop L target (pre ++ (encodeRecords rs ++ post)) rs.length s =
        some { ptr := pre.length + recordsLength L rs,
               visited := s.visited ++ recordOffsets L pre.length rs,
               copies := s.copies ++ copiesOf target rs } := by
  induction rs with
  | nil =>
    intro pre post s _ _ hs
    simp [kernelLoop, recordsLength, recordOffsets, copiesOf, ← hs]
  | cons r rs ih =>
    intro pre post s hwf hnul hs
    have hr : r.WellFormed L := hwf r (by simp)
    have hstep := kernelStep_record L target r pre (encodeRecords rs ++ post) s hr
      (hnul r (by simp)) ht hs
    have hbuf : pre ++ (encodeRecords (r :: rs) ++ post) =
        pre ++ (r.bytes ++ (encodeRecords rs ++ post)) := by
      simp [encodeRecords]
    have hbuf2 : pre ++ (r.bytes ++ (encodeRecords rs ++ post)) =
        (pre ++ r.bytes) ++ (encodeRecords rs ++ post) := by simp
    rw [hbuf, List.length_cons, kernelLoop, hstep]
    simp only
    rw [hbuf2, ih (pre ++ r.bytes) post _ (fun x hx => hwf x (by simp [hx]))
      (fun x hx => hnul x (by simp [hx])) (by simp [bytes_length L r hr.1])]
    simp [recordsLength, recordOffsets, copiesOf_cons target r rs, bytes_length L r hr.1,
      Nat.add_assoc]

/-- Any run of the loop over well-formed records, complete or not: after `n`
iterations the cursor stands at the end of the `n`-th record, the records
visited are the first `n` in order, and the copies made are those of a
subsequence of these records. -/
theorem kernelLoop_steps (L : Layout) (target : List Byte) (rs : List KernelRecord) :
    ∀ (n : Nat) (pre post : List Byte) (s s' : WalkState), n ≤ rs.length →
      (∀ r ∈ rs, r.WellFormed L) → s.ptr = pre.length →
      kernelLoop L target (pre ++ (encodeRecords rs ++ post)) n s = some s' →
      s'.ptr = pre.length + recordsLength L (rs.take n) ∧
        s'.visited = s.visited ++ recordOffsets L pre.length (rs.take n) ∧
        ∃ sel : List KernelRecord,
          sel.Sublist (rs.take n) ∧ s'.copies = s.copies ++ sel.map KernelRecord.copied := by
  induction rs with
  | nil =>
    intro n pre post s s' hn _ hs h
    have hn0 : n = 0 := by simpa using hn
    subst hn0
    simp only [kernelLoop, Option.some.injEq] at h
    subst h
    exact ⟨by simp [recordsLength, hs], by simp [recordOffsets], [], by simp, by simp⟩
  | cons r rs ih =>
    intro n pre post s s' hn hwf hs h
    cases n with
    | zero =>
      simp only [kernelLoop, Option.some.injEq] at h
      subst h
      exact ⟨by simp [recordsLength, hs], by simp [recordOffsets], [], by simp, by simp⟩
    | succ n =>
      have hr : r.WellFormed L := hwf r (by simp)
      have hbuf : pre ++ (encodeRecords (r :: rs) ++ post) =
          pre ++ (r.bytes ++ (encodeRecords rs ++ post)) := by
        simp [encodeRecords]
      have hbuf2 : pre ++ (r.bytes ++ (encodeRecords rs ++ post)) =
          (pre ++ r.bytes) ++ (encodeRecords rs ++ post) := by simp
      rw [hbuf, kernelLoop,
        kernelStep_wellFormed L target r pre (encodeRecords rs ++ post) s hr hs] at h
      cases hm : cstrEq (r.name ++ (r.regions ++ (encodeRecords rs ++ post))) (target ++ [0]) with
      | none => rw [hm] at h; simp at h
      | some m =>
        rw [hm] at h
        simp only [Option.map_some'] at h
        rw [hbuf2] at h
        obtain ⟨hp, hv, sel, hsel, hcp⟩ := ih n (pre ++ r.bytes) post _ s'
          (by simpa using hn) (fun x hx => hwf x (by simp [hx]))
          (by simp [bytes_length L r hr.1]) h
        refine ⟨?_, ?_, ?_⟩
        · rw [hp]
          simp [recordsLength, bytes_length L r hr.1, Nat.add_assoc]
        · rw [hv]
          simp [recordOffsets, bytes_length L r hr.1]
        · cases m with
          | false =>
            exact ⟨sel, by simpa using hsel.cons r, by simpa using hcp⟩
          | true =>
            exact ⟨r :: sel, by simpa using hsel.cons₂ r, by simpa using hcp⟩

/-- On a buffer that starts with a program header carrying the magic, the
header reads of `main` succeed and the assertion passes: the outcome is that of
the loop. -/
theorem parseMain_header (L : Layout) (target hdr rest : List Byte) (count pls : Nat)
    (hL : L.Valid) (hlen : hdr.length = L.progHeaderSize)
    (hmagic : readU32 hdr L.offMagic = some L.MAGIC_CL)
    (hnum : readU32 hdr L.offNumberOfKernels = some count)
    (hpls : readU32 hdr L.offPatchListSize = some pls) :
    parseMain L target (hdr ++ rest) =
      match kernelLoop L target (hdr ++ rest) count
          { ptr := L.progHeaderSize + pls, visited := [], copies := [] } with
      | none => Outcome.outOfBounds
      | some s => Outcome.done s := by
  obtain ⟨_, hv, hd, _, _⟩ := hL
  obtain ⟨ver, hver⟩ := readU32_of_le hdr L.offVersion (by omega)
  obtain ⟨dev, hdev⟩ := readU32_of_le hdr L.offDevice (by omega)
  unfold parseMain
  have e : ∀ off v, readU32 hdr off = some v → readU32 (hdr ++ rest) off = some v :=
    fun off v h => readU32_append_left _ _ _ _ h
  rw [e _ _ hmagic, e _ _ hver, e _ _ hdev, e _ _ hnum]
  simp only [ne_eq, not_true_eq_false, if_false, e _ _ hpls]

/-- On the buffer of a well-formed container the outcome of `main` is that of
its loop. -/
theorem parseMain_loop (L : Layout) (target : List Byte) (c : Container)
    (hL : L.Valid) (hc : c.WellFormed L) :
    parseMain L target c.bytes =
      match kernelLoop L target c.bytes c.kernels.length
          { ptr := L.progHeaderSize + c.patchList.length, visited := [], copies := [] } with
      | none => Outcome.outOfBounds
      | some s => Outcome.done s :=
  parseMain_header L target c.header _ _ _ hL hc.1 hc.2.1 hc.2.2.1 hc.2.2.2.1

/-- The buffer of a container, grouped as the loop lemmas expect it. -/
theorem container_bytes_eq (c : Container) :
    c.bytes = (c.header ++ c.patchList) ++ (encodeRecords c.kernels ++ c.trailing) := by
  simp [Container.bytes]

/-- The whole walk on the buffer of a well-formed container whose names are
NUL-terminated. -/
theorem parseMain_wellFormed (L : Layout) (target : List Byte) (c : Container)
    (hL : L.Valid) (hc : c.WellFormed L) (hn : c.NamesTerminated)
    (ht : ∀ b ∈ target, b ≠ (0 : Byte)) :
    parseMain L target c.bytes = Outcome.done
      { ptr := L.progHeaderSize + c.patchList.length + recordsLength L c.kernels,
        visited := recordOffsets L (L.progHeaderSize + c.patchList.length) c.kernels,
        copies := copiesOf target c.kernels } := by
  have hloop := kernelLoop_records L target c.kernels ht (c.header ++ c.patchList) c.trailing
    { ptr := L.progHeaderSize + c.patchList.length, visited := [], copies := [] } hc.2.2.2.2 hn
    (by simp [hc.1])
  rw [← container_bytes_eq] at hloop
  rw [parseMain_loop L target c hL hc, hloop]
  simp [hc.1]

/-- Any run of the loop of `main` on the buffer of a well-formed container. -/
theorem walk_steps (L : Layout) (target : List Byte) (c : Container)
    (hc : c.WellFormed L) (n : Nat) (s : WalkState) (hn : n ≤ c.kernels.length)
    (h : kernelLoop L target c.bytes n
      { ptr := L.progHeaderSize + c.patchList.length, visited := [], copies := [] } = some s) :
    s.ptr = L.progHeaderSize + c.patchList.length + recordsLength L (c.kernels.take n) ∧
      s.visited = recordOffsets L (L.progHeaderSize + c.patchList.length) (c.kernels.take n) ∧
      ∃ sel : List KernelRecord,
        sel.Sublist (c.kernels.take n) ∧ s.copies = sel.map KernelRecord.copied := by
  rw [container_bytes_eq] at h
  have := kernelLoop_steps L target c.kernels n (c.header ++ c.patchList) c.trailing _ s hn
    hc.2.2.2.2 (by simp [hc.1]) h
  simpa [hc.1] using this

/-! ## Position of a record inside the buffer -/

theorem encodeRecords_append (a b : List KernelRecord) :
    encodeRecords (a ++ b) = encodeRecords a ++ encodeRecords b := by
  induction a with
  | nil => rfl
  | cons r rs ih => simp [encodeRecords, ih]

theorem encodeRecords_length (L : Layout) (rs : List KernelRecord)
    (h : ∀ r ∈ rs, r.header.length = L.kernHeaderSize) :
    (encodeRecords rs).length = recordsLength L rs := by
  induction rs with
  | nil => rfl
  | cons r rs ih =>
    have h1 := bytes_length L r (h r (by simp))
    have h2 := ih (fun x hx => h x (by simp [hx]))
    simp [encodeRecords, recordsLength] at h2 ⊢
    omega

theorem recordOffsets_length (L : Layout) (start : Nat) (rs : List KernelRecord) :
    (recordOffsets L start rs).length = rs.length := by
  induction rs generalizing start with
  | nil => rfl
  | cons r rs ih => simp [recordOffsets, ih]

theorem recordOffsets_append (L : Layout) (start : Nat) (a b : List KernelRecord) :
    recordOffsets L start (a ++ b) =
      recordOffsets L start a ++ recordOffsets L (start + recordsLength L a) b := by
  induction a generalizing start with
  | nil => simp [recordOffsets, recordsLength]
  | cons r rs ih => simp [recordOffsets, ih, recordsLength, Nat.add_assoc]

/-- The offset recorded for the record that follows `front`. -/
theorem recordOffsets_at (L : Layout) (start : Nat) (front back : List KernelRecord)
    (r : KernelRecord) :
    (recordOffsets L start (front ++ r :: back))[front.length]? =
      some (start + recordsLength L front) := by
  rw [recordOffsets_append, List.getElem?_append_right (by simp [recordOffsets_length])]
  simp [recordOffsets_length, recordOffsets]

/-- The buffer of a well-formed container split around one of its records. -/
theorem container_split (L : Layout) (c : Container) (hc : c.WellFormed L)
    (front back : List KernelRecord) (r : KernelRecord) (hk : c.kernels = front ++ r :: back) :
    ∃ pre post, c.bytes = pre ++ (r.bytes ++ post) ∧
      pre.length = L.progHeaderSize + c.patchList.length + recordsLength L front := by
  refine ⟨c.header ++ (c.patchList ++ encodeRecords front),
    encodeRecords back ++ c.trailing, ?_, ?_⟩
  · simp [Container.bytes, hk, encodeRecords_append, encodeRecords]
  · have hf : ∀ x ∈ front, x.header.length = L.kernHeaderSize := by
      intro x hx
      exact (hc.2.2.2.2 x (by simp [hk, hx])).1
    simp [hc.1, encodeRecords_length L front hf]
    omega

/-! ## Reads that succeed on a truncated buffer succeed alike on the full one -/

theorem declaredLength_eq (L : Layout) (r : KernelRecord) (h : r.WellFormed L) :
    r.declaredLength L = r.totalLength L := by
  obtain ⟨_, hns, hpl, hkh, hgs, hds, hss, _⟩ := h
  simp [KernelRecord.declaredLength, KernelRecord.totalLength, KernelRecord.regionsLength,
    hns, hpl, hkh, hgs, hds, hss]
  omega

theorem container_length (L : Layout) (c : Container) (hc : c.WellFormed L) :
    c.bytes.length =
      L.progHeaderSize + c.patchList.length + recordsLength L c.kernels + c.trailing.length := by
  have hf : ∀ x ∈ c.kernels, x.header.length = L.kernHeaderSize :=
    fun x hx => (hc.2.2.2.2 x hx).1
  simp [Container.bytes, hc.1, encodeRecords_length L c.kernels hf]
  omega

theorem copied_eq_heap (r : KernelRecord) (h : r.patchList = []) :
    r.copied = r.kernelHeap := by
  simp [KernelRecord.copied, KernelRecord.regions, h]

/-- The container `bigContainer 0xFFFFFFFF`: every size is declared exactly,
the name is NUL-terminated and nothing trails, yet the five sizes add up to
`2 ^ 32`, the cursor of `main` advances by 0 and ends at 46, far from the end
of the buffer. -/
theorem main_bigContainer (n : Nat) (hn : n = 4294967295) :
    readU32 (bigRecord n).header specLayout.offKernelHeapSize =
        some (bigRecord n).kernelHeap.length ∧
      (bigContainer n).bytes.length = 46 + 2 ^ 32 ∧
      main specLayout (bigContainer n).bytes =
        Outcome.done { ptr := 46, visited := [20], copies := [] } := by
  have hb : (bigContainer n).bytes = (bigContainer n).header ++ ((bigRecord n).bytes ++ []) := by
    simp only [Container.bytes, bigContainer, encodeRecords, List.nil_append,
      List.append_nil]
  have hhl : (bigContainer n).header.length = 20 := rfl
  have hkl : (bigRecord n).header.length = 24 := rfl
  have hnl : (bigRecord n).name.length = 2 := rfl
  have hhp : (bigRecord n).kernelHeap.length = 4294967295 := by
    simp only [bigRecord, List.length_replicate, hn]
  have hkh : readU32 (bigRecord n).header specLayout.offKernelHeapSize =
      some (bigRecord n).kernelHeap.length := by
    rw [hhp]; rfl
  have hreg : (bigRecord n).regionsLength = 2 ^ 32 := by
    have h : (bigRecord n).regionsLength = 0 + (bigRecord n).kernelHeap.length + 1 + 0 + 0 := rfl
    rw [h, hhp]
    norm_num
  have hrl : (bigRecord n).regions.length = 2 ^ 32 := by rw [regions_length, hreg]
  refine ⟨hkh, ?_, ?_⟩
  · rw [hb]
    simp only [List.length_append, hhl, KernelRecord.bytes, hkl, hnl, hrl, List.length_nil]
    omega
  · unfold main
    rw [hb, parseMain_header specLayout E_2_4 (bigContainer n).header _ 1 0 (by decide) hhl
      rfl rfl rfl]
    have hstep := kernelStep_layout specLayout E_2_4 (bigRecord n) (bigContainer n).header []
      { ptr := 20, visited := [], copies := [] } hkl rfl rfl hkh rfl rfl rfl (by rw [hhl])
    have hcmp : cstrEq ((bigRecord n).name ++ ((bigRecord n).regions ++ [])) (E_2_4 ++ [0]) =
        some false := rfl
    rw [hcmp, hreg, hhl] at hstep
    simp only [kernelLoop]
    have h20 : specLayout.progHeaderSize + 0 = 20 := rfl
    rw [h20, hstep]
    rfl

/-- A 32-bit load inside a run of zero bytes. -/
theorem readU32_zeros (n k : Nat) (post : List Byte) (h : k + 4 ≤ n) :
    readU32 (List.replicate n (0 : Byte) ++ post) k = some 0 := by
  apply readU32_append_left
  unfold readU32
  rw [List.drop_replicate]
  obtain ⟨m, hm⟩ : ∃ m, n - k = m + 4 := ⟨n - k - 4, by omega⟩
  rw [hm]
  simp [List.replicate_succ]

/-- An iteration whose header loads stay inside the buffer and whose name does
not match. -/
theorem kernelStep_mismatch (L : Layout) (target buf : List Byte) (s : WalkState)
    (nameSize patchListSize heapSize generalSize dynamicSize surfaceSize : Nat)
    (hns : readU32 buf (s.ptr + L.offKernelNameSize) = some nameSize)
    (hpl : readU32 buf (s.ptr + L.offKernelPatchListSize) = some patchListSize)
    (hkh : readU32 buf (s.ptr + L.offKernelHeapSize) = some heapSize)
    (hgs : readU32 buf (s.ptr + L.offGeneralStateHeapSize) = some generalSize)
    (hds : readU32 buf (s.ptr + L.offDynamicStateHeapSize) = some dynamicSize)
    (hss : readU32 buf (s.ptr + L.offSurfaceStateHeapSize) = some surfaceSize)
    (hcmp : strcmpEq buf (s.ptr + L.kernHeaderSize) target = some false) :
    kernelStep L target buf s = some
      { ptr := s.ptr + L.kernHeaderSize + nameSize +
          (patchListSize + heapSize + generalSize + dynamicSize + surfaceSize) % 2 ^ 32,
        visited := s.visited ++ [s.ptr], copies := s.copies } := by
  unfold kernelStep
  simp [hns, hpl, hkh, hgs, hds, hss, hcmp, addU32_chain_mod]

/-- The walk of `main` over `bigPairContainer 0xFFFFFFFF`: the first record is
`26 + 2 ^ 32` bytes long, so the second starts at `46 + 2 ^ 32`, but the cursor
advances by the 32-bit sum 0 and the second iteration takes place at offset 46,
inside the zero bytes of the first record's heap. -/
theorem main_bigPairContainer (n : Nat) (hn : n = 4294967295) :
    readU32 (bigPairContainer n).bytes specLayout.offNumberOfKernels = some 2 ∧
      (bigRecord n).totalLength specLayout = 26 + 2 ^ 32 ∧
      main specLayout (bigPairContainer n).bytes =
        Outcome.done { ptr := 70, visited := [20, 46], copies := [] } := by
  have hb : (bigPairContainer n).bytes = (bigPairContainer n).header ++
      ((bigRecord n).bytes ++ (mkRecord (nameA ++ [0]) [] heapA).bytes) := by
    simp only [Container.bytes, bigPairContainer, encodeRecords, List.nil_append,
      List.append_nil]
  have hb2 : (bigPairContainer n).bytes =
      ((bigPairContainer n).header ++ ((bigRecord n).header ++ (bigRecord n).name)) ++
        (List.replicate n (0 : Byte) ++
          ([0] ++ (mkRecord (nameA ++ [0]) [] heapA).bytes)) := by
    rw [hb]
    simp [KernelRecord.bytes, KernelRecord.regions, bigRecord]
  have hpre : ((bigPairContainer n).header ++
      ((bigRecord n).header ++ (bigRecord n).name)).length = 46 := rfl
  have hhl : (bigPairContainer n).header.length = 20 := rfl
  have hkl : (bigRecord n).header.length = 24 := rfl
  have hhp : (bigRecord n).kernelHeap.length = 4294967295 := by
    simp only [bigRecord, List.length_replicate, hn]
  have hkh : readU32 (bigRecord n).header specLayout.offKernelHeapSize =
      some (bigRecord n).kernelHeap.length := by
    rw [hhp]; rfl
  have hreg : (bigRecord n).regionsLength = 2 ^ 32 := by
    have h : (bigRecord n).regionsLength = 0 + (bigRecord n).kernelHeap.length + 1 + 0 + 0 := rfl
    rw [h, hhp]
    norm_num
  have hread : ∀ k, k + 4 ≤ n → readU32 (bigPairContainer n).bytes (46 + k) = some 0 := by
    intro k hk
    rw [hb2, ← hpre, readU32_append_right]
    exact readU32_zeros n k _ hk
  have hcmp2 : strcmpEq (bigPairContainer n).bytes (46 + 24) E_2_4 = some false := by
    unfold strcmpEq
    rw [hb2, ← hpre, List.drop_append,
      List.drop_append_of_le_length (by rw [List.length_replicate]; omega),
      List.drop_replicate]
    obtain ⟨m, hm⟩ : ∃ m, n - 24 = m + 1 := ⟨n - 25, by omega⟩
    rw [hm, List.replicate_succ]
    rfl
  have hstep1 := kernelStep_layout specLayout E_2_4 (bigRecord n) (bigPairContainer n).header
    (mkRecord (nameA ++ [0]) [] heapA).bytes
    { ptr := 20, visited := [], copies := [] } hkl rfl rfl hkh rfl rfl rfl (by rw [hhl])
  have hcmp1 : cstrEq ((bigRecord n).name ++ ((bigRecord n).regions ++
      (mkRecord (nameA ++ [0]) [] heapA).bytes)) (E_2_4 ++ [0]) = some false := rfl
  rw [hcmp1, hreg, hhl, ← hb] at hstep1
  have hstep2 := kernelStep_mismatch specLayout E_2_4 (bigPairContainer n).bytes
    { ptr := 46, visited := [20], copies := [] } 0 0 0 0 0 0
    (hread 0 (by omega)) (hread 4 (by omega)) (hread 8 (by omega)) (hread 12 (by omega))
    (hread 16 (by omega)) (hread 20 (by omega)) hcmp2
  refine ⟨?_, ?_, ?_⟩
  · rw [hb]
    exact readU32_append_left _ _ _ _ rfl
  · have h : (bigRecord n).totalLength specLayout = 24 + 2 + (bigRecord n).regionsLength := rfl
    rw [h, hreg]
  · unfold main
    rw [hb, parseMain_header specLayout E_2_4 (bigPairContainer n).header _ 2 0 (by decide) hhl
      rfl rfl rfl, ← hb]
    have h20 : specLayout.progHeaderSize + 0 = 20 := rfl
    simp only [kernelLoop]
    rw [h20, hstep1]
    have hs1 : (Option.map (fun m : Bool =>
        ({ ptr := 20 + specLayout.kernHeaderSize + (bigRecord n).name.length + 2 ^ 32 % 2 ^ 32,
           visited := ({ ptr := 20, visited := [], copies := [] } : WalkState).visited ++ [20],
           copies := if m = true then
             ({ ptr := 20, visited := [], copies := [] } : WalkState).copies ++
               [(bigRecord n).copied]
             else ({ ptr := 20, visited := [], copies := [] } : WalkState).copies } :
          WalkState)) (some false)) =
        some { ptr := 46, visited := [20], copies := [] } := rfl
    rw [hs1]
    simp only
    rw [hstep2]
    rfl

/-- A record among the first `n` is a record of the whole list, with the same
records in front of it. -/
theorem take_split {α : Type} (l : List α) (n : Nat) (front back : List α) (r : α)
    (h : l.take n = front ++ r :: back) : l = front ++ r :: (back ++ l.drop n) := by
  have := List.take_append_drop n l
  rw [h] at this
  simpa using this.symm

/-! ## The claims -/

set_option maxRecDepth 100000

/-- C1 does not hold for every container with exactly declared sizes.
`bareLastContainer` is well formed and has `NumberOfKernels = 2`, but the name
field of its last record is `E_2_4` without a NUL and ends the 79-byte buffer,
so the `strcmp` of line 85 reads past the end of the buffer in the second
iteration. In `bigPairContainer 0xFFFFFFFF` the first record declares its sizes
exactly and is `26 + 2 ^ 32` bytes long, so the second record starts at
`46 + 2 ^ 32`; the 32-bit sum of the sizes is 0 and the walk visits offset 46
as its second record. -/
theorem record_walk_counterexample :
    bareLastContainer.WellFormed specLayout ∧
      readU32 bareLastContainer.bytes specLayout.offNumberOfKernels = some 2 ∧
      bareLastContainer.bytes.length = 79 ∧
      main specLayout bareLastContainer.bytes = Outcome.outOfBounds ∧
      readU32 (bigPairContainer 0xFFFFFFFF).bytes specLayout.offNumberOfKernels = some 2 ∧
      (bigRecord 0xFFFFFFFF).totalLength specLayout = 26 + 2 ^ 32 ∧
      main specLayout (bigPairContainer 0xFFFFFFFF).bytes =
        Outcome.done { ptr := 70, visited := [20, 46], copies := [] } :=
  ⟨by decide, by decide, by decide, by decide, main_bigPairContainer 0xFFFFFFFF rfl⟩

/-- C1 as amended: in the buffer of every well-formed container (the five
sizes of each record adding up to less than `2 ^ 32`) the program header
declares `NumberOfKernels` = the number of records, and the record that
follows the records `front` lies at offset `sizeof(SProgramBinaryHeader) +
PatchListSize +` the total length of the records of `front`. After any `n`
completed iterations the walk has visited exactly the first `n` records, each
at that offset, in container order. When every name field holds a NUL the walk
runs to completion and so visits exactly `NumberOfKernels` records. -/
theorem walk_visits_records_in_order (L : Layout) (target : List Byte) (c : Container)
    (hL : L.Valid) (hc : c.WellFormed L) (ht : ∀ b ∈ target, b ≠ (0 : Byte)) :
    readU32 c.bytes L.offNumberOfKernels = some c.kernels.length ∧
      readU32 c.bytes L.offPatchListSize = some c.patchList.length ∧
      (∀ front r back, c.kernels = front ++ r :: back →
        (c.bytes.drop (L.progHeaderSize + c.patchList.length + recordsLength L front)).take
          (r.totalLength L) = r.bytes) ∧
      (∀ (n : Nat) (s : WalkState), n ≤ c.kernels.length →
        kernelLoop L target c.bytes n
          { ptr := L.progHeaderSize + c.patchList.length, visited := [], copies := [] } =
            some s →
        s.visited.length = n ∧
        ∀ front r back, c.kernels.take n = front ++ r :: back →
          s.visited[front.length]? =
            some (L.progHeaderSize + c.patchList.length + recordsLength L front)) ∧
      (c.NamesTerminated →
        ∃ s, parseMain L target c.bytes = Outcome.done s ∧
          s.visited.length = c.kernels.length ∧
          ∀ front r back, c.kernels = front ++ r :: back →
            s.visited[front.length]? =
              some (L.progHeaderSize + c.patchList.length + recordsLength L front)) := by
  refine ⟨readU32_append_left _ _ _ _ hc.2.2.1, readU32_append_left _ _ _ _ hc.2.2.2.1,
    ?_, ?_, ?_⟩
  · intro front r back hk
    obtain ⟨pre, post, hb, hp⟩ := container_split L c hc front back r hk
    have hr : r.header.length = L.kernHeaderSize := (hc.2.2.2.2 r (by simp [hk])).1
    rw [hb, ← hp, List.drop_left, ← bytes_length L r hr, List.take_left]
  · intro n s hn h
    obtain ⟨_, hv, _⟩ := walk_steps L target c hc n s hn h
    refine ⟨?_, ?_⟩
    · rw [hv, recordOffsets_length]
      simp only [List.length_take]
      omega
    · intro front r back hk
      rw [hv, hk]
      exact recordOffsets_at L _ front back r
  · intro hn
    refine ⟨_, parseMain_wellFormed L target c hL hc hn ht, ?_, ?_⟩
    · simp only [recordOffsets_length]
    · intro front r back hk
      simp only [hk]
      exact recordOffsets_at L _ front back r

/-- Witness for the amended C1 on the two-kernel container of scenario S3. -/
theorem walk_visits_records_in_order_witness :
    specLayout.Valid ∧ abContainer.WellFormed specLayout ∧ abContainer.NamesTerminated ∧
      readU32 abContainer.bytes specLayout.offNumberOfKernels = some 2 ∧
      ∃ s, parseMain specLayout E_2_4 abContainer.bytes = Outcome.done s ∧
        s.visited.length = 2 :=
  have h := walk_visits_records_in_order specLayout E_2_4 abContainer (by decide) (by decide)
    (by decide)
  ⟨by decide, by decide, by decide, h.1,
    (h.2.2.2.2 (by decide)).imp fun _ hs => ⟨hs.1, hs.2.1⟩⟩

/-- C7 does not hold for every container built by concatenation. In
`bareNameContainer` (49 bytes, sizes declared exactly, nothing trailing) the
name field `E_2_4` has no NUL and ends the buffer, and `strcmp` reads past the
end: there is no final cursor. In `bigContainer 0xFFFFFFFF` the record declares
its sizes exactly, `KernelHeapSize = 0xFFFFFFFF` and `GeneralStateHeapSize =
1`; their 32-bit sum is 0, and the walk ends with the cursor at 46 in a buffer
of `46 + 2 ^ 32` bytes. -/
theorem final_cursor_counterexample :
    bareNameContainer.WellFormed specLayout ∧ bareNameContainer.trailing = [] ∧
      bareNameContainer.bytes.length = 49 ∧
      main specLayout bareNameContainer.bytes = Outcome.outOfBounds ∧
      readU32 (bigRecord 0xFFFFFFFF).header specLayout.offKernelHeapSize =
        some (bigRecord 0xFFFFFFFF).kernelHeap.length ∧
      (bigContainer 0xFFFFFFFF).bytes.length = 46 + 2 ^ 32 ∧
      main specLayout (bigContainer 0xFFFFFFFF).bytes =
        Outcome.done { ptr := 46, visited := [20], copies := [] } :=
  ⟨by decide, by decide, by decide, by decide, main_bigContainer 0xFFFFFFFF rfl⟩

/-- C7 as amended: for every container built by concatenating a program header
that carries the magic, its patch list and its kernel records with their
declared sizes, each record's five sizes adding up to less than `2 ^ 32`, and
no trailing bytes, the sum `sizeof(SProgramBinaryHeader) + PatchListSize +`
the declared record lengths is the length of the buffer; the walk either reads
outside the buffer (inside `strcmp`) or ends with its cursor at that value; and
when every name field holds a NUL it does end, with the cursor at that
value. -/
theorem final_cursor_is_buffer_length (L : Layout) (target : List Byte) (c : Container)
    (hL : L.Valid) (hc : c.WellFormed L) (ht : ∀ b ∈ target, b ≠ (0 : Byte))
    (htrail : c.trailing = []) :
    readU32 c.bytes L.offPatchListSize = some c.patchList.length ∧
      L.progHeaderSize + c.patchList.length +
        (c.kernels.map (KernelRecord.declaredLength L)).sum = c.bytes.length ∧
      (parseMain L target c.bytes = Outcome.outOfBounds ∨
        ∃ s, parseMain L target c.bytes = Outcome.done s ∧ s.ptr = c.bytes.length) ∧
      (c.NamesTerminated →
        ∃ s patchListSize, parseMain L target c.bytes = Outcome.done s ∧
          readU32 c.bytes L.offPatchListSize = some patchListSize ∧
          s.ptr = L.progHeaderSize + patchListSize +
            (c.kernels.map (KernelRecord.declaredLength L)).sum ∧
          s.ptr = c.bytes.length) := by
  have hmap : c.kernels.map (KernelRecord.declaredLength L) =
      c.kernels.map (KernelRecord.totalLength L) :=
    List.map_congr_left fun r hr => declaredLength_eq L r (hc.2.2.2.2 r hr)
  have hlen : c.bytes.length =
      L.progHeaderSize + c.patchList.length + recordsLength L c.kernels := by
    rw [container_length L c hc, htrail]
    simp
  have hpl : readU32 c.bytes L.offPatchListSize = some c.patchList.length :=
    readU32_append_left _ _ _ _ hc.2.2.2.1
  refine ⟨hpl, ?_, ?_, ?_⟩
  · rw [hmap, hlen]
    rfl
  · rw [parseMain_loop L target c hL hc]
    cases hloop : kernelLoop L target c.bytes c.kernels.length
        { ptr := L.progHeaderSize + c.patchList.length, visited := [], copies := [] } with
    | none => exact Or.inl rfl
    | some s =>
      obtain ⟨hp, _, _⟩ := walk_steps L target c hc _ s (Nat.le_refl _) hloop
      refine Or.inr ⟨s, rfl, ?_⟩
      rw [hp, hlen, List.take_length]
  · intro hn
    refine ⟨_, c.patchList.length, parseMain_wellFormed L target c hL hc hn ht, hpl, ?_, ?_⟩
    · simp only [hmap, recordsLength]
    · rw [hlen]

/-- Witness for the amended C7 on the container of scenario S1, whose buffer
has 66 bytes. -/
theorem final_cursor_is_buffer_length_witness :
    specLayout.Valid ∧ s1Container.WellFormed specLayout ∧ s1Container.trailing = [] ∧
      s1Container.NamesTerminated ∧
      ∃ s patchListSize, parseMain specLayout E_2_4 s1Container.bytes = Outcome.done s ∧
        readU32 s1Container.bytes specLayout.offPatchListSize = some patchListSize ∧
        s.ptr = specLayout.progHeaderSize + patchListSize +
          (s1Container.kernels.map (KernelRecord.declaredLength specLayout)).sum ∧
        s.ptr = s1Container.bytes.length :=
  ⟨by decide, by decide, rfl, by decide,
    (final_cursor_is_buffer_length specLayout E_2_4 s1Container (by decide) (by decide)
      (by decide) rfl).2.2.2 (by decide)⟩

/-- C2 does not hold: in a well-formed container whose single kernel
`"E_2_4"` has the patch list `EE EE` in front of the heap `01 02 03 04`, the
walk copies `EE EE 01 02`, the four bytes that follow the name, while the
region after the patch list holds `01 02 03 04`. -/
theorem patch_list_is_copied_counterexample :
    patchedContainer.WellFormed specLayout ∧
      main specLayout patchedContainer.bytes =
        Outcome.done { ptr := 56, visited := [20], copies := [[0xEE, 0xEE, 1, 2]] } ∧
      (patchedContainer.bytes.drop (20 + 24 + 6 + 2)).take 4 = [1, 2, 3, 4] := by
  decide

/-- C2 as amended: in the buffer of every well-formed container, for every
record the `KernelHeapSize` bytes the walk copies when the record's name
matches are `buffer[p : p + KernelHeapSize]` with `p` the offset just after the
record's name bytes, so the per-kernel patch list is not skipped; the heap
itself is `buffer[p + PatchListSize : p + PatchListSize + KernelHeapSize]`, and
the copy is the heap when the record's `PatchListSize` is 0. After any number
of completed iterations the copies made are these bytes of a subsequence of the
records visited, in order; when every name field holds a NUL the walk
completes and makes one such copy for every record whose logical name is the
requested name. -/
theorem copied_bytes_follow_name (L : Layout) (target : List Byte) (c : Container)
    (hL : L.Valid) (hc : c.WellFormed L) (ht : ∀ b ∈ target, b ≠ (0 : Byte)) :
    (c.NamesTerminated →
        ∃ s, parseMain L target c.bytes = Outcome.done s ∧
          s.copies = (c.kernels.filter fun r => decide (logicalName r.name = target)).map
            KernelRecord.copied) ∧
      (∀ (n : Nat) (s : WalkState), n ≤ c.kernels.length →
        kernelLoop L target c.bytes n
          { ptr := L.progHeaderSize + c.patchList.length, visited := [], copies := [] } =
            some s →
        ∃ sel : List KernelRecord, sel.Sublist (c.kernels.take n) ∧
          s.copies = sel.map KernelRecord.copied) ∧
      ∀ front r back, c.kernels = front ++ r :: back →
        r.copied = (c.bytes.drop (L.progHeaderSize + c.patchList.length +
          recordsLength L front + L.kernHeaderSize + r.name.length)).take
            r.kernelHeap.length ∧
        r.kernelHeap = (c.bytes.drop (L.progHeaderSize + c.patchList.length +
          recordsLength L front + L.kernHeaderSize + r.name.length +
            r.patchList.length)).take r.kernelHeap.length ∧
        (r.patchList.length = 0 → r.copied = r.kernelHeap) := by
  refine ⟨fun hn => ⟨_, parseMain_wellFormed L target c hL hc hn ht, rfl⟩,
    fun n s hn h => (walk_steps L target c hc n s hn h).2.2, ?_⟩
  intro front r back hk
  obtain ⟨pre, post, hb, hp⟩ := container_split L c hc front back r hk
  have hr : r.WellFormed L := hc.2.2.2.2 r (by simp [hk])
  have e1 : c.bytes = (pre ++ (r.header ++ r.name)) ++ (r.regions ++ post) := by
    rw [hb]; simp [KernelRecord.bytes]
  have l1 : (pre ++ (r.header ++ r.name)).length = L.progHeaderSize + c.patchList.length +
      recordsLength L front + L.kernHeaderSize + r.name.length := by
    simp [hr.1]; omega
  have e2 : c.bytes = (pre ++ (r.header ++ (r.name ++ r.patchList))) ++
      (r.kernelHeap ++ ((r.generalStateHeap ++ (r.dynamicStateHeap ++ r.surfaceStateHeap))
        ++ post)) := by
    rw [hb]; simp [KernelRecord.bytes, KernelRecord.regions]
  have l2 : (pre ++ (r.header ++ (r.name ++ r.patchList))).length = L.progHeaderSize +
      c.patchList.length + recordsLength L front + L.kernHeaderSize + r.name.length +
        r.patchList.length := by
    simp [hr.1]; omega
  refine ⟨?_, ?_, ?_⟩
  · have hle : r.kernelHeap.length ≤ r.regions.length := by
      rw [regions_length]; unfold KernelRecord.regionsLength; omega
    rw [← l1, e1, List.drop_left, List.take_append_of_le_length hle]
    rfl
  · rw [← l2, e2, List.drop_left, List.take_left]
  · intro h0
    exact copied_eq_heap r (List.length_eq_zero.mp h0)

/-- Witness for the amended C2, scenario S1: the kernel has no patch list and
the 16 heap bytes `00 .. 0F` are copied. -/
theorem copied_bytes_follow_name_witness :
    specLayout.Valid ∧ s1Container.WellFormed specLayout ∧ s1Container.NamesTerminated ∧
      (∃ s, parseMain specLayout E_2_4 s1Container.bytes = Outcome.done s ∧
        s.copies = (s1Container.kernels.filter fun r =>
          decide (logicalName r.name = E_2_4)).map KernelRecord.copied) ∧
      main specLayout s1Buffer =
        Outcome.done { ptr := 66, visited := [20], copies := [s1Heap] } :=
  ⟨by decide, by decide, by decide,
    (copied_bytes_follow_name specLayout E_2_4 s1Container (by decide) (by decide)
      (by decide)).1 (by decide),
    by decide⟩

/-- C3 does not hold for every buffer: on the four-byte buffer `DE AD BE EF`,
whose Magic field is not `MAGIC_CL`, the walk reads `header->Version` outside
the buffer (line 68) before the magic is asserted. -/
theorem short_buffer_counterexample :
    readU32 shortBuffer specLayout.offMagic = some 0xEFBEADDE ∧
      0xEFBEADDE ≠ specLayout.MAGIC_CL ∧
      main specLayout shortBuffer = Outcome.outOfBounds := by
  decide

/-- C3 as amended: for every buffer that is at least as long as the program
header and whose Magic field differs from `MAGIC_CL`, the walk ends at the
magic assertion: no kernel record is visited and no heap is copied, and the
outcome is the same on the program header alone, so no byte past the header is
interpreted. -/
theorem bad_magic_stops_before_loop (L : Layout) (target buf : List Byte) (hL : L.Valid)
    (hlen : L.progHeaderSize ≤ buf.length)
    (hmagic : readU32 buf L.offMagic ≠ some L.MAGIC_CL) :
    parseMain L target buf = Outcome.badMagic ∧
      parseMain L target (buf.take L.progHeaderSize) = Outcome.badMagic := by
  obtain ⟨h1, h2, h3, h4, _⟩ := hL
  have key : ∀ b : List Byte, L.progHeaderSize ≤ b.length →
      readU32 b L.offMagic ≠ some L.MAGIC_CL → parseMain L target b = Outcome.badMagic := by
    intro b hb hm
    obtain ⟨m, hm'⟩ := readU32_of_le b L.offMagic (by omega)
    obtain ⟨v, hv⟩ := readU32_of_le b L.offVersion (by omega)
    obtain ⟨d, hd⟩ := readU32_of_le b L.offDevice (by omega)
    obtain ⟨n, hn⟩ := readU32_of_le b L.offNumberOfKernels (by omega)
    have hne : m ≠ L.MAGIC_CL := by
      intro he
      exact hm (by rw [hm', he])
    unfold parseMain
    rw [hm', hv, hd, hn]
    simp [hne]
  refine ⟨key buf hlen hmagic, key _ (by simp; omega) ?_⟩
  intro htake
  have hfull := readU32_append_left (buf.take L.progHeaderSize) (buf.drop L.progHeaderSize)
    _ _ htake
  rw [List.take_append_drop] at hfull
  exact hmagic hfull

/-- Witness for the amended C3, scenario S5: the buffer of S1 with its first
four bytes overwritten by `DE AD BE EF` ends at the magic assertion. -/
theorem bad_magic_stops_before_loop_witness :
    specLayout.Valid ∧ specLayout.progHeaderSize ≤ s5Buffer.length ∧
      readU32 s5Buffer specLayout.offMagic ≠ some specLayout.MAGIC_CL ∧
      parseMain specLayout E_2_4 s5Buffer = Outcome.badMagic ∧
      parseMain specLayout E_2_4 (s5Buffer.take specLayout.progHeaderSize) =
        Outcome.badMagic :=
  ⟨by decide, by decide, by decide,
    bad_magic_stops_before_loop specLayout E_2_4 s5Buffer (by decide) (by decide) (by decide)⟩

/-- C9 does not hold: the record of `overflowBuffer` declares
`KernelHeapSize = 0xFFFFFFFF` and `GeneralStateHeapSize = 1`, whose sum with
the other three sizes (all 0) is `2 ^ 32`; the walk does not reject the record
but completes, and its cursor, 46 after the name, is advanced by
`2 ^ 32 mod 2 ^ 32 = 0`. -/
theorem overflow_wraps_counterexample :
    readU32 overflowBuffer (20 + specLayout.offKernelHeapSize) = some 0xFFFFFFFF ∧
      readU32 overflowBuffer (20 + specLayout.offGeneralStateHeapSize) = some 1 ∧
      overflowBuffer.length = 46 ∧
      main specLayout overflowBuffer =
        Outcome.done { ptr := 46, visited := [20], copies := [] } := by
  decide

/-- C9 as amended: an iteration whose reads stay inside the buffer always
produces a next state, never a rejection, and it advances the cursor past the
header and the name and then by the sum `PatchListSize + KernelHeapSize +
GeneralStateHeapSize + DynamicStateHeapSize + SurfaceStateHeapSize` taken
modulo `2 ^ 32`; when the exact sum is below `2 ^ 32` the advance is the exact
sum. -/
theorem cursor_advance_wraps (L : Layout) (target buf : List Byte) (s : WalkState)
    (nameSize patchListSize heapSize generalSize dynamicSize surfaceSize : Nat)
    (isMatch : Bool)
    (hns : readU32 buf (s.ptr + L.offKernelNameSize) = some nameSize)
    (hpl : readU32 buf (s.ptr + L.offKernelPatchListSize) = some patchListSize)
    (hkh : readU32 buf (s.ptr + L.offKernelHeapSize) = some heapSize)
    (hgs : readU32 buf (s.ptr + L.offGeneralStateHeapSize) = some generalSize)
    (hds : readU32 buf (s.ptr + L.offDynamicStateHeapSize) = some dynamicSize)
    (hss : readU32 buf (s.ptr + L.offSurfaceStateHeapSize) = some surfaceSize)
    (hcmp : strcmpEq buf (s.ptr + L.kernHeaderSize) target = some isMatch)
    (hcopy : isMatch = true → s.ptr + L.kernHeaderSize + nameSize + heapSize ≤ buf.length) :
    ∃ s', kernelStep L target buf s = some s' ∧
      s'.ptr = s.ptr + L.kernHeaderSize + nameSize +
        (patchListSize + heapSize + generalSize + dynamicSize + surfaceSize) % 2 ^ 32 ∧
      (patchListSize + heapSize + generalSize + dynamicSize + surfaceSize < 2 ^ 32 →
        s'.ptr = s.ptr + L.kernHeaderSize + nameSize +
          (patchListSize + heapSize + generalSize + dynamicSize + surfaceSize)) := by
  have hstep : ∃ cp, kernelStep L target buf s = some
      { ptr := s.ptr + L.kernHeaderSize + nameSize +
          (patchListSize + heapSize + generalSize + dynamicSize + surfaceSize) % 2 ^ 32,
        visited := s.visited ++ [s.ptr], copies := cp } := by
    unfold kernelStep
    simp only [hns, hpl, hkh, hgs, hds, hss, hcmp, Option.bind_eq_bind, Option.some_bind,
      Option.pure_def, addU32_chain_mod]
    cases isMatch with
    | false => exact ⟨s.copies, by simp⟩
    | true =>
      have hle := hcopy rfl
      refine ⟨s.copies ++ [(buf.drop (s.ptr + L.kernHeaderSize + nameSize)).take heapSize], ?_⟩
      simp [memcpy, hle]
  obtain ⟨cp, hcp⟩ := hstep
  refine ⟨_, hcp, rfl, ?_⟩
  intro hlt
  simp only [Nat.mod_eq_of_lt hlt]

/-- Witness for the amended C9: the first iteration on `overflowBuffer`, where
the five sizes add up to `2 ^ 32`. -/
theorem cursor_advance_wraps_witness :
    ∃ s', kernelStep specLayout E_2_4 overflowBuffer
        { ptr := 20, visited := [], copies := [] } = some s' ∧
      s'.ptr = 20 + specLayout.kernHeaderSize + 2 + (0 + 0xFFFFFFFF + 1 + 0 + 0) % 2 ^ 32 ∧
      (0 + 0xFFFFFFFF + 1 + 0 + 0 < 2 ^ 32 →
        s'.ptr = 20 + specLayout.kernHeaderSize + 2 + (0 + 0xFFFFFFFF + 1 + 0 + 0)) :=
  cursor_advance_wraps specLayout E_2_4 overflowBuffer
    { ptr := 20, visited := [], copies := [] } 2 0 0xFFFFFFFF 1 0 0 false
    (by decide) (by decide) (by decide) (by decide) (by decide) (by decide) (by decide)
    (by decide)

/-- C10 does not hold: in both buffers the name field is the five bytes
`E_2_4` with `KernelNameSize = 5` and no NUL, and the buffers differ only in
the byte at offset `KernelNameSize` from the start of the name (offset 49);
`strcmp` reads that byte, so the kernel matches when it is 0 and does not
match when it is 1, although the logical name is `E_2_4` in both. -/
theorem unterminated_name_counterexample :
    readU32 (unterminatedBuffer 1) (20 + specLayout.offKernelNameSize) = some 5 ∧
      ((unterminatedBuffer 1).drop 44).take 5 = E_2_4 ∧
      (unterminatedBuffer 0).take 49 = (unterminatedBuffer 1).take 49 ∧
      logicalName (((unterminatedBuffer 1).drop 44).take 5) = E_2_4 ∧
      main specLayout (unterminatedBuffer 0) =
        Outcome.done { ptr := 51, visited := [20], copies := [[0, 2]] } ∧
      main specLayout (unterminatedBuffer 1) =
        Outcome.done { ptr := 51, visited := [20], copies := [] } := by
  decide

/-- C10 as amended: in every iteration of the walk on a well-formed record,
the name compared against the requested name is the C string that starts at
the record's name field, not bounded by `KernelNameSize`: the record is copied
exactly when the bytes from the start of the name field on (the name bytes and
whatever follows them in the buffer) begin with the requested name and a NUL;
when the scan leaves the buffer first the iteration has no result. When the
name field itself contains a NUL the iteration always has a result, and the
record is copied exactly when the prefix of the field up to its first NUL is
the requested name, whatever bytes follow the field. -/
theorem walk_compares_c_string (L : Layout) (target : List Byte) (r : KernelRecord)
    (pre post : List Byte) (s : WalkState) (hr : r.WellFormed L)
    (ht : ∀ b ∈ target, b ≠ (0 : Byte)) (hs : s.ptr = pre.length) :
    (∀ rest, r.name ++ (r.regions ++ post) = target ++ 0 :: rest →
        kernelStep L target (pre ++ (r.bytes ++ post)) s =
          some { ptr := pre.length + r.totalLength L, visited := s.visited ++ [pre.length],
                 copies := s.copies ++ [r.copied] }) ∧
      (∀ s', kernelStep L target (pre ++ (r.bytes ++ post)) s = some s' →
        (¬ ∃ rest, r.name ++ (r.regions ++ post) = target ++ 0 :: rest) →
        s' = { ptr := pre.length + r.totalLength L, visited := s.visited ++ [pre.length],
               copies := s.copies }) ∧
      (kernelStep L target (pre ++ (r.bytes ++ post)) s = none ↔
        cstrEq (r.name ++ (r.regions ++ post)) (target ++ [0]) = none) ∧
      ((0 : Byte) ∈ r.name →
        kernelStep L target (pre ++ (r.bytes ++ post)) s =
          some { ptr := pre.length + r.totalLength L, visited := s.visited ++ [pre.length],
                 copies := s.copies ++
                   if logicalName r.name = target then [r.copied] else [] }) := by
  have hstep := kernelStep_wellFormed L target r pre post s hr hs
  have hiff := cstrEq_eq_true_iff (r.name ++ (r.regions ++ post)) target ht
  refine ⟨?_, ?_, ?_, ?_⟩
  · intro rest hrest
    rw [hstep, hiff.mpr ⟨rest, hrest⟩]
    simp
  · intro s' hs' hno
    rw [hstep] at hs'
    cases hm : cstrEq (r.name ++ (r.regions ++ post)) (target ++ [0]) with
    | none => rw [hm] at hs'; simp at hs'
    | some m =>
      cases m with
      | true => exact absurd (hiff.mp hm) hno
      | false =>
        rw [hm] at hs'
        simpa using hs'.symm
  · rw [hstep]
    simp
  · intro hnul
    rw [kernelStep_record L target r pre post s hr hnul ht hs, copiesOf_single]

/-- Witness for the amended C10: the record of `unterminatedBuffer 0` has the
name field `E_2_4` without a NUL; the bytes from the start of the name are
`E_2_4`, NUL, `02`, and the first iteration of the walk copies the record. -/
theorem walk_compares_c_string_witness :
    (mkRecord E_2_4 [] [0, 2]).WellFormed specLayout ∧
      (0 : Byte) ∉ (mkRecord E_2_4 [] [0, 2]).name ∧
      mkProgramHeader specLayout.MAGIC_CL 0 0 1 0 ++ ((mkRecord E_2_4 [] [0, 2]).bytes ++ []) =
        unterminatedBuffer 0 ∧
      kernelStep specLayout E_2_4
          (mkProgramHeader specLayout.MAGIC_CL 0 0 1 0 ++ ((mkRecord E_2_4 [] [0, 2]).bytes ++ []))
          { ptr := 20, visited := [], copies := [] } =
        some { ptr := (mkProgramHeader specLayout.MAGIC_CL 0 0 1 0).length +
                 (mkRecord E_2_4 [] [0, 2]).totalLength specLayout,
               visited := [] ++ [(mkProgramHeader specLayout.MAGIC_CL 0 0 1 0).length],
               copies := [] ++ [(mkRecord E_2_4 [] [0, 2]).copied] } :=
  ⟨by decide, by decide, by decide,
    (walk_compares_c_string specLayout E_2_4 (mkRecord E_2_4 [] [0, 2])
      (mkProgramHeader specLayout.MAGIC_CL 0 0 1 0) []
      { ptr := 20, visited := [], copies := [] } (by decide) (by decide) (by decide)).1 [2]
      (by decide)⟩

end IntelBinary
